import Mathlib

/-!
Verification of the msbt-tools codec library: a shallow embedding of the
file-type sniffer, the LMS hash-table hash, the OMS bundle resolver, the
LMS (MSF) header and block framework, the TXT2 message codec and the darc
archive codec, together with theorems settling the specification claims.

Bytes are modelled as lists of naturals (each byte a value below 256);
fallible operations return `Option` or `Except`.  Python `struct.pack`
range errors, `IndexError`, decode errors and `NotImplementedError` are
modelled as `none` / `.error`.
-/

namespace MsbtTools

abbrev Bytes := List Nat

/-- Byte order value, as in lib/byteorder.py (`ByteOrder.LITTLE_ENDIAN` /
`BIG_ENDIAN`). -/
inductive ByteOrderType where
  | le
  | be
deriving DecidableEq

/-- Little-endian two-byte encoding of `n` (struct format "H" with "<"). -/
def le16 (n : Nat) : Bytes := [n % 256, n / 256 % 256]

/-- Big-endian two-byte encoding of `n`. -/
def be16 (n : Nat) : Bytes := [n / 256 % 256, n % 256]

/-- Little-endian four-byte encoding of `n` (struct format "I" with "<"). -/
def le32 (n : Nat) : Bytes :=
  [n % 256, n / 256 % 256, n / 65536 % 256, n / 16777216 % 256]

/-- Big-endian four-byte encoding of `n`. -/
def be32 (n : Nat) : Bytes :=
  [n / 16777216 % 256, n / 65536 % 256, n / 256 % 256, n % 256]

/-- struct.pack "H": fails (raises) when the value is out of range. -/
def ByteOrderType.pack16 (o : ByteOrderType) (n : Nat) : Option Bytes :=
  if n < 65536 then some (match o with | .le => le16 n | .be => be16 n) else none

/-- struct.pack "I": fails (raises) when the value is out of range. -/
def ByteOrderType.pack32 (o : ByteOrderType) (n : Nat) : Option Bytes :=
  if n < 4294967296 then some (match o with | .le => le32 n | .be => be32 n) else none

/-- struct.unpack "H" from an exact two-byte buffer; any other length is a
struct.error. -/
def ByteOrderType.unpack16 (o : ByteOrderType) : Bytes → Option Nat
  | [a, b] => some (match o with | .le => a + 256 * b | .be => 256 * a + b)
  | _ => none

/-- struct.unpack "I" from an exact four-byte buffer. -/
def ByteOrderType.unpack32 (o : ByteOrderType) : Bytes → Option Nat
  | [a, b, c, d] =>
    some (match o with
      | .le => a + 256 * b + 65536 * c + 16777216 * d
      | .be => 16777216 * a + 65536 * b + 256 * c + d)
  | _ => none

/-- The BOM bytes of a byte order (lib/byteorder.py). -/
def ByteOrderType.bom : ByteOrderType → Bytes
  | .le => [0xFF, 0xFE]
  | .be => [0xFE, 0xFF]

/-- ByteOrder.from_bom without a default: `none` models the ValueError. -/
def fromBom : Bytes → Option ByteOrderType
  | [0xFF, 0xFE] => some .le
  | [0xFE, 0xFF] => some .be
  | _ => none

/-- Python `f.read(n)` at position `pos`: returns the available bytes,
silently short near the end of the buffer. -/
def slice (d : Bytes) (pos n : Nat) : Bytes := (d.drop pos).take n

/-- UTF-8 encoding of one character (Python `str.encode("utf-8")`,
one code point). -/
def utf8Encode (c : Char) : Bytes :=
  let n := c.toNat
  if n < 0x80 then [n]
  else if n < 0x800 then [0xC0 + n / 64, 0x80 + n % 64]
  else if n < 0x10000 then [0xE0 + n / 4096, 0x80 + n / 64 % 64, 0x80 + n % 64]
  else [0xF0 + n / 262144, 0x80 + n / 4096 % 64, 0x80 + n / 64 % 64, 0x80 + n % 64]

/-- UTF-16 code units of one character (BMP: one unit; otherwise a
surrogate pair), as Python `str.encode("utf-16-le"/"utf-16-be")` emits. -/
def utf16Units (c : Char) : List Nat :=
  let n := c.toNat
  if n < 0x10000 then [n]
  else [0xD800 + (n - 0x10000) / 1024, 0xDC00 + (n - 0x10000) % 1024]

/-- UTF-16 byte encoding of a string in the given byte order. -/
def utf16Encode (o : ByteOrderType) (s : String) : Bytes :=
  (s.data.flatMap utf16Units).flatMap
    (fun u => match o with | .le => le16 u | .be => be16 u)

/-- Decoding a single two-byte chunk as UTF-16 (Python decodes each chunk
separately, so an unpaired surrogate raises UnicodeDecodeError). -/
def decodeUnit16 (o : ByteOrderType) : Bytes → Option Char
  | [a, b] =>
    let u := match o with | .le => a + 256 * b | .be => 256 * a + b
    if u < 0xD800 ∨ (0xE000 ≤ u ∧ u < 0x110000) then some (Char.ofNat u) else none
  | _ => none

-- ### lib/filetype.py

/-- FileType enum members (lib/filetype.py). -/
inductive FileType where
  | unknownFile
  | msbtFile
  | msbpFile
  | msbfFile
  | darcFile
  | lz11File
deriving DecidableEq

def magicDarc : Bytes := [0x64, 0x61, 0x72, 0x63]

def magicStd : Bytes := [0x4D, 0x73, 0x67, 0x53, 0x74, 0x64, 0x42, 0x6E]

def magicPrj : Bytes := [0x4D, 0x73, 0x67, 0x50, 0x72, 0x6A, 0x42, 0x6E]

def magicFlw : Bytes := [0x4D, 0x73, 0x67, 0x46, 0x6C, 0x77, 0x42, 0x6E]

/-- FileType.guess (lib/filetype.py lines 12-24).  `data[0]` on an empty
bytes object raises IndexError, modelled as `none`. -/
def FileType.guess : Bytes → Option FileType
  | [] => none
  | b :: rest =>
    some (if b = 0x11 then .lz11File
      else if (b :: rest).take 4 = magicDarc then .darcFile
      else if (b :: rest).take 8 = magicStd then .msbtFile
      else if (b :: rest).take 8 = magicPrj then .msbpFile
      else if (b :: rest).take 8 = magicFlw then .msbfFile
      else .unknownFile)

-- ### HashTableBlock.hash (lib/lms.py lines 75-80)

/-- HashTableBlock.hash: Python iterates the characters of the label and
uses `ord`, i.e. Unicode code points. -/
def HashTableBlock.hash (label : String) (numSlots : Nat) : Nat :=
  ((label.data.foldl (fun v c => v * 0x492 + c.toNat) 0) &&& 0xFFFFFFFF) % numSlots

/-- The hash as the spec words it, second definition for comparison:
the same fold but over the label's UTF-8 code units, reduced mod 2^32 and
then mod the slot count. -/
def specHashUtf8 (label : String) (numSlots : Nat) : Nat :=
  ((label.data.flatMap utf8Encode).foldl (fun v u => v * 0x492 + u) 0 % 4294967296)
    % numSlots

/-- The hash formula with the code-unit clause corrected to Unicode code
points, for the amended claim. -/
def specHashCodepoints (label : String) (numSlots : Nat) : Nat :=
  ((label.data.foldl (fun v c => v * 0x492 + c.toNat) 0) % 4294967296) % numSlots

-- ### lib/oms.py: bundle model

/-- TagParameter (lib/oms.py). -/
structure TagParameter where
  name : String
  type : Nat
  items : List Nat
deriving DecidableEq

/-- Tag (lib/oms.py). -/
structure Tag where
  name : String
  parameters : List TagParameter
deriving DecidableEq

/-- TagGroup (lib/oms.py). -/
structure TagGroup where
  name : String
  tags : List Tag
deriving DecidableEq

/-- OMSProject's table state after _import_msbp (lib/oms.py). -/
structure OMSProject where
  tag_parameters : List TagParameter
  tags : List Tag
  tag_groups : List TagGroup
deriving DecidableEq

/-- Python list indexing: a negative index counts from the end, an index
out of range raises IndexError (`none`). -/
def pyGet (l : List α) (i : Int) : Option α :=
  if i < 0 then
    if (-i).toNat ≤ l.length then l.get? (l.length - (-i).toNat) else none
  else l.get? i.toNat

/-- OMSProject._import_msbp (lib/oms.py lines 113-127): builds the
parameter, tag and group tables; an out-of-range cross index raises
(`none`). -/
def importMsbp (tgp2 : List (String × Nat × List Nat))
    (tag2 : List (String × List Nat)) (tgg2 : List (String × List Nat)) :
    Option OMSProject := do
  let params := tgp2.map (fun x => TagParameter.mk x.1 x.2.1 x.2.2)
  let tags ← tag2.mapM (fun x => (x.2.mapM (fun i => params.get? i)).map (Tag.mk x.1))
  let groups ← tgg2.mapM (fun x => (x.2.mapM (fun i => tags.get? i)).map (TagGroup.mk x.1))
  some ⟨params, tags, groups⟩

/-- The string literal the source compares message characters against in
OMSText.import_binary_text: the file stores the three characters
U+00EF U+00BF U+00BC (the UTF-8 bytes of U+FFFC read back as code points),
not the single character U+FFFC. -/
def objReplMoji : String := "\u00EF\u00BF\u00BC"

/-- Loop of OMSText.import_binary_text (lib/oms.py lines 47-66), with the
accumulators explicit.  `tags.pop(0)` on an empty list and out-of-range
table lookups raise (`none`). -/
def importBinaryTextGo (project : OMSProject) :
    List Char → List (Int × Int × Bytes) → String → Nat →
    List (TagGroup × Tag × Bytes) → Option (String × List (TagGroup × Tag × Bytes))
  | [], _, text, _, outTags => some (text, outTags)
  | c :: cs, tags, text, outIdx, outTags =>
    if String.singleton c = objReplMoji then
      match tags with
      | [] => none
      | (gi, ti, pd) :: rest => do
        let group ← pyGet project.tag_groups gi
        let tag ← pyGet group.tags ti
        importBinaryTextGo project cs rest
          (text ++ "\x7b" ++ toString outIdx ++ "\x7d") (outIdx + 1)
          (outTags ++ [(group, tag, pd)])
    else
      importBinaryTextGo project cs tags (text.push c) outIdx outTags

/-- OMSText.import_binary_text: resolves one message against the project,
returning the display text and resolved tag list stored for the label. -/
def importBinaryText (project : OMSProject) (message : String)
    (tags : List (Int × Int × Bytes)) :
    Option (String × List (TagGroup × Tag × Bytes)) :=
  importBinaryTextGo project message.data tags "" 0 []

-- ### Byte buffer (io.BytesIO)

/-- An in-memory byte buffer with a cursor, modelling io.BytesIO. -/
structure Buf where
  data : Bytes
  pos : Nat
deriving DecidableEq

def Buf.empty : Buf := ⟨[], 0⟩

/-- BytesIO.write: overwrites at the cursor, extending (and zero-filling a
gap after a seek past the end) as needed. -/
def Buf.write (b : Buf) (bs : Bytes) : Buf :=
  let d := b.data ++ List.replicate (b.pos - b.data.length) 0
  ⟨d.take b.pos ++ bs ++ d.drop (b.pos + bs.length), b.pos + bs.length⟩

def Buf.seek (b : Buf) (p : Nat) : Buf := ⟨b.data, p⟩

def Buf.tell (b : Buf) : Nat := b.pos

def Buf.getvalue (b : Buf) : Bytes := b.data

-- ### LMS files (lib/lms.py)

/-- Text encodings an LMS file can declare (the Python code stores the
codec name string; the BOM fixes the endianness suffix). -/
inductive Enc where
  | utf8
  | utf16 (o : ByteOrderType)
  | utf32 (o : ByteOrderType)
deriving DecidableEq

/-- Width of one code unit, len("A".encode(encoding)). -/
def Enc.width : Enc → Nat
  | .utf8 => 1
  | .utf16 _ => 2
  | .utf32 _ => 4

/-- Decoding one code unit's bytes; `none` models UnicodeDecodeError
(wrong length, lone surrogate, out-of-range code point). -/
def Enc.decodeChar : Enc → Bytes → Option Nat
  | .utf8, [b] => if b < 0x80 then some b else none
  | .utf16 o, [a, b] =>
    let u := match o with | .le => a + 256 * b | .be => 256 * a + b
    if u < 0xD800 ∨ 0xE000 ≤ u then some u else none
  | .utf32 o, [a, b, c, d] =>
    let u := match o with
      | .le => a + 256 * b + 65536 * c + 16777216 * d
      | .be => 16777216 * a + 65536 * b + 256 * c + d
    if (u < 0xD800 ∨ 0xE000 ≤ u) ∧ u < 0x110000 then some u else none
  | _, _ => none

/-- Error kinds raised by LMS parsing (ValueError / TypeError /
struct.error / UnicodeDecodeError / RuntimeError in the source). -/
inductive LMSError where
  | badBom
  | truncated
  | badVersion
  | badEncoding
  | badMagic
  | unhandledBlock
  | blockError
deriving DecidableEq

/-- The fixed-size part of an LMS file header. -/
structure LMSHeader where
  magic : Bytes
  byteOrder : ByteOrderType
  encoding : Enc
  numBlocks : Nat
deriving DecidableEq

/-- The header part of LMSFile._read_header (lib/lms.py lines 763-781):
ident "8s 2s", then "2x B B H 2x I 10x"; version is checked before the
encoding code; the file-size field is read but unused. -/
def readHeaderCore (d : Bytes) : Except LMSError LMSHeader :=
  match slice d 0 10 with
  | [g0, g1, g2, g3, g4, g5, g6, g7, b0, b1] =>
    match fromBom [b0, b1] with
    | none => .error .badBom
    | some bo =>
      match slice d 10 22 with
      | [_, _, encT, ver, n0, n1, _, _, _, _, _, _, _, _, _, _, _, _, _, _, _, _] =>
        if ver ≠ 3 then .error .badVersion
        else
          let nb := match bo with | .le => n0 + 256 * n1 | .be => 256 * n0 + n1
          match encT with
          | 0 => .ok ⟨[g0, g1, g2, g3, g4, g5, g6, g7], bo, .utf8, nb⟩
          | 1 => .ok ⟨[g0, g1, g2, g3, g4, g5, g6, g7], bo, .utf16 bo, nb⟩
          | 2 => .ok ⟨[g0, g1, g2, g3, g4, g5, g6, g7], bo, .utf32 bo, nb⟩
          | _ => .error .badEncoding
      | _ => .error .truncated
  | _ => .error .truncated

/-- The derivation of the text encoding from the encoding code and the
byte order established by the BOM, as the header parser performs it. -/
def encFromCode (code : Nat) (bo : ByteOrderType) : Option Enc :=
  match code with
  | 0 => some .utf8
  | 1 => some (.utf16 bo)
  | 2 => some (.utf32 bo)
  | _ => none

/-- bytes.decode("ascii"): every byte must be below 0x80. -/
def asciiDecode (bs : Bytes) : Option String :=
  if bs.all (· < 0x80) then some (String.mk (bs.map Char.ofNat)) else none

/-- str.encode("ascii"). -/
def asciiEncode (s : String) : Option Bytes :=
  if s.data.all (fun c => c.toNat < 0x80) then some (s.data.map Char.toNat) else none

/-- Python dict assignment `m[k] = v`: replaces in place, preserving the
original insertion position, else appends. -/
def dictSet [DecidableEq κ] (k : κ) (v : α) : List (κ × α) → List (κ × α)
  | [] => [(k, v)]
  | (k', v') :: rest => if k' = k then (k, v) :: rest else (k', v') :: dictSet k v rest

/-- The block-reading loop of LMSFile._read_header: reads 16-byte block
headers and bodies into an insertion-ordered dict until num_blocks
distinct tags are present, skipping to 16-byte alignment between blocks.
Each pass consumes at least 16 bytes or fails, so the fuel (passed as
data length + 1) is never exhausted on a terminating run; running out of
input raises struct.error (.truncated). -/
def readBlocksGo (bo : ByteOrderType) (d : Bytes) (numBlocks : Nat) :
    Nat → Nat → List (String × Bytes) → Except LMSError (List (String × Bytes))
  | 0, _, _ => .error .truncated
  | fuel + 1, pos, acc =>
    if acc.length < numBlocks then
      match slice d pos 16 with
      | [t0, t1, t2, t3, s0, s1, s2, s3, _, _, _, _, _, _, _, _] =>
        match asciiDecode [t0, t1, t2, t3] with
        | none => .error .blockError
        | some tag =>
          let size := match bo with
            | .le => s0 + 256 * s1 + 65536 * s2 + 16777216 * s3
            | .be => 16777216 * s0 + 65536 * s1 + 256 * s2 + s3
          let body := slice d (pos + 16) size
          let newPos := pos + 16 + body.length
          let aligned := if newPos % 16 > 0 then newPos + (16 - newPos % 16) else newPos
          readBlocksGo bo d numBlocks fuel aligned (dictSet tag body acc)
      | _ => .error .truncated
    else .ok acc

-- HashTableBlock (lib/lms.py lines 67-136)

/-- read_char with utf-8: reads one byte; a byte at or above 0x80 fails
to decode on its own. -/
def readCharUtf8 (d : Bytes) (pos : Nat) : Option (Char × Nat) :=
  match slice d pos 1 with
  | [b] => if b < 0x80 then some (Char.ofNat b, pos + 1) else none
  | _ => none

def readLabelChars (d : Bytes) : Nat → Nat → String → Option (String × Nat)
  | 0, pos, acc => some (acc, pos)
  | n + 1, pos, acc =>
    match readCharUtf8 d pos with
    | some (c, pos') => readLabelChars d n pos' (acc.push c)
    | none => none

def htReadSlotLabels (bo : ByteOrderType) (d : Bytes) :
    Nat → Nat → List (String × Nat) → Option (List (String × Nat))
  | 0, _, acc => some acc
  | n + 1, pos, acc =>
    match slice d pos 1 with
    | [len] => do
      let (label, pos') ← readLabelChars d len (pos + 1) ""
      let item ← bo.unpack32 (slice d pos' 4)
      htReadSlotLabels bo d n (pos' + 4) (dictSet label item acc)
    | _ => none

def htReadSlots (bo : ByteOrderType) (d : Bytes) :
    Nat → Nat → List (String × Nat) → Option (List (String × Nat))
  | 0, _, acc => some acc
  | n + 1, pos, acc => do
    let numLabels ← bo.unpack32 (slice d pos 4)
    let off ← bo.unpack32 (slice d (pos + 4) 4)
    if numLabels ≠ 0 then do
      let acc' ← htReadSlotLabels bo d numLabels off acc
      htReadSlots bo d n (pos + 8) acc'
    else htReadSlots bo d n (pos + 8) acc

/-- HashTableBlock.from_bytes: slot count, then per-slot label lists. -/
def HashTableBlock.from_bytes (bo : ByteOrderType) (d : Bytes) :
    Option (Nat × List (String × Nat)) := do
  let numSlots ← bo.unpack32 (slice d 0 4)
  let labels ← htReadSlots bo d numSlots 4 []
  some (numSlots, labels)

/-- struct.pack "B". -/
def pack8 (n : Nat) : Option Bytes := if n < 256 then some [n] else none

/-- The bucket a label lands in on emit (append order preserved). -/
def htBucket (labels : List (String × Nat)) (numSlots j : Nat) :
    List (String × Nat) :=
  labels.filter (fun x => HashTableBlock.hash x.1 numSlots = j)

/-- HashTableBlock.to_bytes (lib/lms.py lines 109-133): slot count, a
zeroed slot-header area, then per-slot label runs with the slot headers
patched in; hashing with zero slots raises ZeroDivisionError. -/
def HashTableBlock.to_bytes (bo : ByteOrderType) (numSlots : Nat)
    (labels : List (String × Nat)) : Option Bytes := do
  if labels ≠ [] ∧ numSlots = 0 then none
  else do
    let w ← bo.pack32 numSlots
    let b := Buf.empty.write w
    let slotsStart := b.tell
    let b := b.write (List.replicate (numSlots * 8) 0)
    let b ← (List.range numSlots).foldlM (fun (b : Buf) j => do
      let bucket := htBucket labels numSlots j
      let pos := b.tell
      let b ← bucket.foldlM (fun (b : Buf) lv => do
        let lenB ← pack8 lv.1.length
        let vB ← bo.pack32 lv.2
        pure (((b.write lenB).write (lv.1.data.flatMap utf8Encode)).write vB)) b
      let endPos := b.tell
      let cntB ← bo.pack32 bucket.length
      let posB ← bo.pack32 pos
      pure (((b.seek (slotsStart + j * 8)).write (cntB ++ posB)).seek endPos)) b
    pure b.getvalue

-- TXT2Block (lib/lms.py lines 608-664)

/-- One message-tag record: (group, type, parameter bytes); the 0xE0
button shorthand uses the sentinel pair (-1, -1). -/
abbrev TagRecord := Int × Int × Bytes

/-- The character scan of TXT2Block.from_bytes (lib/lms.py lines
633-653): reads code units until the encoding's NUL; 0x000E introduces a
control record (group:u16, tag:u16, param_size:u16, param bytes); a chunk
containing the byte 0xE0 becomes a synthetic (-1,-1,button) record; both
substitute the object-replacement character in the display text.  Each
pass consumes at least one byte, so the fuel (data length + 1) is never
exhausted on a terminating run; `none` models a decode error or running
off the end of the buffer. -/
def txt2ReadMsg (bo : ByteOrderType) (enc : Enc) (d : Bytes) :
    Nat → Nat → String → List TagRecord → Option (String × List TagRecord)
  | 0, _, _, _ => none
  | fuel + 1, pos, msg, tags =>
    let chBytes := slice d pos enc.width
    match enc.decodeChar chBytes with
    | none => none
    | some u =>
      if u = 0 then some (msg, tags)
      else if u = 0x0E then
        match bo.unpack16 (slice d (pos + enc.width) 2),
            bo.unpack16 (slice d (pos + enc.width + 2) 2),
            bo.unpack16 (slice d (pos + enc.width + 4) 2) with
        | some g, some t, some sz =>
          let pd := slice d (pos + enc.width + 6) sz
          txt2ReadMsg bo enc d fuel (pos + enc.width + 6 + pd.length)
            (msg.push (Char.ofNat 0xFFFC)) (tags ++ [((g : Int), (t : Int), pd)])
        | _, _, _ => none
      else if 0xE0 ∈ chBytes then
        let button := chBytes.filter (fun b => b ≠ 0xE0)
        txt2ReadMsg bo enc d fuel (pos + enc.width)
          (msg.push (Char.ofNat 0xFFFC)) (tags ++ [(-1, -1, button)])
      else
        txt2ReadMsg bo enc d fuel (pos + enc.width) (msg.push (Char.ofNat u)) tags
termination_by structural fuel _ _ _ => fuel

def txt2ReadAll (bo : ByteOrderType) (enc : Enc) (d : Bytes) :
    Nat → Nat → List (String × List TagRecord) →
    Option (List (String × List TagRecord))
  | 0, _, acc => some acc
  | n + 1, pos, acc => do
    let off ← bo.unpack32 (slice d pos 4)
    let m ← txt2ReadMsg bo enc d (d.length + 1) off "" []
    txt2ReadAll bo enc d n (pos + 4) (acc ++ [m])

/-- TXT2Block.from_bytes: message count, then one offset per message,
each message scanned from its offset. -/
def TXT2Block.from_bytes (bo : ByteOrderType) (enc : Enc) (d : Bytes) :
    Option (List (String × List TagRecord)) := do
  let n ← bo.unpack32 (slice d 0 4)
  txt2ReadAll bo enc d n 4 []

-- Parsed blocks of a Standard file and block emission

/-- A parsed block of an LMS Standard file (LMSStandardFile.SECTIONS:
LBL1 is a hash-table block, ATR1 an UnknownBlock, TXT2 the message
block). -/
inductive Block where
  | unknown (data : Bytes)
  | hashTable (numSlots : Nat) (labels : List (String × Nat))
  | txt2 (messages : List (String × List TagRecord))
deriving DecidableEq

/-- Block emission: UnknownBlock returns its stored bytes; TXT2Block's
to_bytes raises NotImplementedError (lib/lms.py lines 663-664), modelled
as `none`. -/
def Block.to_bytes (bo : ByteOrderType) : Block → Option Bytes
  | .unknown d => some d
  | .hashTable n ls => HashTableBlock.to_bytes bo n ls
  | .txt2 _ => none

/-- Codec dispatch of LMSFile._parse_blocks for the Standard file's
closed section table. -/
def stdParseBlock (bo : ByteOrderType) (enc : Enc) (tag : String)
    (d : Bytes) : Except LMSError Block :=
  match tag with
  | "LBL1" =>
    match HashTableBlock.from_bytes bo d with
    | some x => .ok (.hashTable x.1 x.2)
    | none => .error .blockError
  | "ATR1" => .ok (.unknown d)
  | "TXT2" =>
    match TXT2Block.from_bytes bo enc d with
    | some m => .ok (.txt2 m)
    | none => .error .blockError
  | _ => .error .unhandledBlock

/-- The state of a parsed LMS file: header fields plus the raw and the
decoded block maps (insertion-ordered). -/
structure LMSFileData where
  magic : Bytes
  byteOrder : ByteOrderType
  encoding : Enc
  raw_blocks : List (String × Bytes)
  blocks : List (String × Block)
deriving DecidableEq

/-- The loop of LMSFile._parse_blocks: decode each raw block with its
codec, failing on the first error (Python raises out of the loop). -/
def parseBlocksGo (bo : ByteOrderType) (enc : Enc) :
    List (String × Bytes) → Except LMSError (List (String × Block))
  | [] => .ok []
  | (k, v) :: rest =>
    match stdParseBlock bo enc k v with
    | .error e => .error e
    | .ok b =>
      match parseBlocksGo bo enc rest with
      | .error e => .error e
      | .ok bs => .ok ((k, b) :: bs)
termination_by structural l => l

/-- LMSStandardFile.from_bytes (lib/lms.py lines 933-943): header and
block table, magic check, then block decoding via the closed section
table. -/
def LMSStandardFile.from_bytes (d : Bytes) : Except LMSError LMSFileData :=
  match readHeaderCore d with
  | .error e => .error e
  | .ok hdr =>
    match readBlocksGo hdr.byteOrder d hdr.numBlocks (d.length + 1) 32 [] with
    | .error e => .error e
    | .ok raw =>
      if hdr.magic ≠ magicStd then .error .badMagic
      else
        match parseBlocksGo hdr.byteOrder hdr.encoding raw with
        | .error e => .error e
        | .ok blocks => .ok ⟨hdr.magic, hdr.byteOrder, hdr.encoding, raw, blocks⟩

/-- The loop of LMSFile._write_blocks: each block's bytes behind a
"4s I 8x" header, with 0xAB padding to the next 16-byte boundary. -/
def writeBlocksGo (bo : ByteOrderType) :
    List (String × Block) → Buf → Option Buf
  | [], b => some b
  | (k, blk) :: rest, b =>
    match blk.to_bytes bo with
    | none => none
    | some bd =>
      match asciiEncode k with
      | none => none
      | some tagB =>
        match bo.pack32 bd.length with
        | none => none
        | some szB =>
          let tag4 := tagB.take 4 ++ List.replicate (4 - tagB.length) 0
          let b := (b.write (tag4 ++ szB ++ List.replicate 8 0)).write bd
          let rem := b.tell % 16
          writeBlocksGo bo rest
            (if rem > 0 then b.write (List.replicate (16 - rem) 0xAB) else b)
termination_by structural l _ => l

/-- LMSFile.to_bytes (lib/lms.py lines 861-870): header, then each block
with its 16-byte header and 0xAB alignment padding, then the file size
patched at offset 18.  Any block whose to_bytes raises makes the whole
emission fail. -/
def LMSFileData.to_bytes (f : LMSFileData) : Option Bytes :=
  match f.byteOrder.pack16 f.blocks.length, f.byteOrder.pack32 0 with
  | some nb, some zero32 =>
    let encNum : Nat := match f.encoding with | .utf8 => 0 | .utf16 _ => 1 | .utf32 _ => 2
    let b := (Buf.empty.write f.magic).write f.byteOrder.bom
    let b := b.write ([0, 0, encNum, 3] ++ nb ++ [0, 0] ++ zero32 ++ List.replicate 10 0)
    match writeBlocksGo f.byteOrder f.blocks b with
    | none => none
    | some b =>
      match f.byteOrder.pack32 b.tell with
      | none => none
      | some szB => some ((b.seek 18).write szB).getvalue
  | _, _ => none

-- ### Helper lemmas for the resolver

/-- A one-character string never equals the three-character comparison
string used by import_binary_text. -/
theorem singleton_ne_objReplMoji (c : Char) : String.singleton c ≠ objReplMoji := by
  intro h
  have h2 := congrArg String.length h
  simp [String.singleton, String.length, objReplMoji] at h2

theorem importBinaryTextGo_eq (p : OMSProject) :
    ∀ (cs : List Char) (tags : List (Int × Int × Bytes)) (text : String)
      (idx : Nat) (outTags : List (TagGroup × Tag × Bytes)),
    importBinaryTextGo p cs tags text idx outTags = some (text ++ String.mk cs, outTags) := by
  intro cs
  induction cs with
  | nil =>
    intro tags text idx outTags
    simp [importBinaryTextGo]
  | cons c cs ih =>
    intro tags text idx outTags
    have hstep : importBinaryTextGo p (c :: cs) tags text idx outTags
        = importBinaryTextGo p cs tags (text.push c) idx outTags := by
      simp only [importBinaryTextGo, if_neg (singleton_ne_objReplMoji c)]
    rw [hstep, ih]
    have hs : (text.push c) ++ String.mk cs = text ++ String.mk (c :: cs) := by
      apply String.ext
      simp [String.push]
    rw [hs]

-- ### darc archives (lib/new_darc.py)

/-- A node of the archive tree (DarcEntry): a named file with payload
bytes or a named directory with ordered children. -/
inductive DarcEntry where
  | file (name : String) (data : Bytes)
  | dir (name : String) (children : List DarcEntry)

mutual

def darcDecEq : (a b : DarcEntry) → Decidable (a = b)
  | .file n d, .file n' d' =>
    if h1 : n = n' then
      if h2 : d = d' then isTrue (by rw [h1, h2])
      else isFalse (by intro h; cases h; exact h2 rfl)
    else isFalse (by intro h; cases h; exact h1 rfl)
  | .file .., .dir .. => isFalse (fun h => DarcEntry.noConfusion h)
  | .dir .., .file .. => isFalse (fun h => DarcEntry.noConfusion h)
  | .dir n cs, .dir n' cs' =>
    if h1 : n = n' then
      match darcDecEqList cs cs' with
      | isTrue h2 => isTrue (by rw [h1, h2])
      | isFalse h2 => isFalse (by intro h; cases h; exact h2 rfl)
    else isFalse (by intro h; cases h; exact h1 rfl)

def darcDecEqList : (a b : List DarcEntry) → Decidable (a = b)
  | [], [] => isTrue rfl
  | [], _ :: _ => isFalse (fun h => List.noConfusion h)
  | _ :: _, [] => isFalse (fun h => List.noConfusion h)
  | x :: xs, y :: ys =>
    match darcDecEq x y, darcDecEqList xs ys with
    | isTrue h1, isTrue h2 => isTrue (by rw [h1, h2])
    | isFalse h1, _ => isFalse (by intro h; cases h; exact h1 rfl)
    | _, isFalse h2 => isFalse (by intro h; cases h; exact h2 rfl)

end

instance : DecidableEq DarcEntry := darcDecEq

def DarcEntry.isDir : DarcEntry → Bool
  | .file .. => false
  | .dir .. => true

def DarcEntry.name : DarcEntry → String
  | .file n _ => n
  | .dir n _ => n

/-- DarcEntry.length: child count for a directory, payload size for a
file (an unset payload reads as empty). -/
def DarcEntry.entryLength : DarcEntry → Nat
  | .file _ d => d.length
  | .dir _ cs => cs.length

/-- DarcEntry.data for files (directories never reach the access in the
emit loop, which skips them first). -/
def DarcEntry.fileData : DarcEntry → Bytes
  | .file _ d => d
  | .dir .. => []

mutual

/-- DarcEntry.dir_entry_size: the number of entries in this node's
subtree, itself included. -/
def DarcEntry.dir_entry_size : DarcEntry → Nat
  | .file .. => 1
  | .dir _ cs => 1 + dirEntrySizeList cs

def dirEntrySizeList : List DarcEntry → Nat
  | [] => 0
  | e :: es => e.dir_entry_size + dirEntrySizeList es

end

mutual

/-- DarcEntry.flat_tree: depth-first pre-order listing of the subtree. -/
def DarcEntry.flat_tree : DarcEntry → List DarcEntry
  | .file n d => [.file n d]
  | .dir n cs => .dir n cs :: flatTreeList cs

def flatTreeList : List DarcEntry → List DarcEntry
  | [] => []
  | e :: es => e.flat_tree ++ flatTreeList es

end

mutual

/-- The number of strict descendants of a node. -/
def descendantCount : DarcEntry → Nat
  | .file .. => 0
  | .dir _ cs => descendantCountList cs

def descendantCountList : List DarcEntry → Nat
  | [] => 0
  | e :: es => 1 + descendantCount e + descendantCountList es

end

/-- Full path of an entry given its parent's path (DarcEntry.filename:
the "/"-joined chain of names; the root's path is its own name). -/
def pathJoin : Option String → String → String
  | none, n => n
  | some p, n => p ++ "/" ++ n

mutual

/-- flat_tree paired with the attributes the table loop reads from each
node: parent path, own path, name, is_dir, and dir_entry_size for a
directory or payload length for a file. -/
def flatWithPath : Option String → DarcEntry →
    List (Option String × String × String × Bool × Nat)
  | pp, .file n d => [(pp, pathJoin pp n, n, false, d.length)]
  | pp, .dir n cs =>
    (pp, pathJoin pp n, n, true, (DarcEntry.dir n cs).dir_entry_size)
      :: flatWithPathList (pathJoin pp n) cs

def flatWithPathList : String → List DarcEntry →
    List (Option String × String × String × Bool × Nat)
  | _, [] => []
  | p, e :: es => flatWithPath (some p) e ++ flatWithPathList p es

end

mutual

/-- DarcEntry.breadth_tree paired with the attributes the file-data loop
reads: path, is_dir, payload and length; for each directory first the
sub-directory subtrees, then the file children, then the directory
itself. -/
def breadthWithPath : Option String → DarcEntry → List (String × Bool × Bytes × Nat)
  | pp, .file n d => [(pathJoin pp n, false, d, d.length)]
  | pp, .dir n cs =>
    breadthDirsWP (some (pathJoin pp n)) cs ++ breadthFilesWP (some (pathJoin pp n)) cs
      ++ [(pathJoin pp n, true, [], cs.length)]

def breadthDirsWP : Option String → List DarcEntry → List (String × Bool × Bytes × Nat)
  | _, [] => []
  | pp, e :: es => (if e.isDir then breadthWithPath pp e else []) ++ breadthDirsWP pp es

def breadthFilesWP : Option String → List DarcEntry → List (String × Bool × Bytes × Nat)
  | _, [] => []
  | pp, e :: es => (if e.isDir then [] else breadthWithPath pp e) ++ breadthFilesWP pp es

end

/-- The third field written for an entry at pre-order index `i`:
`i + e.dir_entry_size()` for directories, `e.length` for files. -/
def entryThird (e : DarcEntry) (i : Nat) : Nat :=
  if e.isDir then i + e.dir_entry_size else e.entryLength

/-- Lookup in the filename_to_index dict (latest binding wins). -/
def f2iLookup (m : List (Option String × Nat)) (k : Option String) : Option Nat :=
  (m.find? (fun x => x.1 == k)).map (fun x => x.2)

/-- 32-byte alignment with zero fill, as Darc.to_bytes's local align. -/
def darcAlign (b : Buf) : Buf :=
  let extra := b.tell % 0x20
  if extra > 0 then b.write (List.replicate (0x20 - extra) 0) else b

/-- The first emit loop of Darc.to_bytes (lib/new_darc.py lines
181-195): writes one 12-byte table record per pre-order entry while
accumulating the name table and the filename-to-index dict.  The third
field `if isdir then i + s else s` is `entryThird` of the node at index
`i`, with `s` the node's dir_entry_size or payload length. -/
def writeTableGo (bo : ByteOrderType) :
    List (Option String × String × String × Bool × Nat) → Buf → Bytes →
    List (Option String × Nat) → Nat →
    Option (Buf × Bytes × List (Option String × Nat) × Nat)
  | [], buf, nt, m, i => some (buf, nt, m, i)
  | (pp, path, nm, isdir, s) :: rest, buf, nt, m, i =>
    let nameOff := nt.length
    let nt := nt ++ utf16Encode bo nm ++ [0, 0]
    match (if isdir then f2iLookup m pp else some 0) with
    | none => none
    | some parentIdx =>
      match bo.pack32 (nameOff ||| (if isdir then 0x01000000 else 0)) with
      | none => none
      | some w1 =>
        match bo.pack32 parentIdx with
        | none => none
        | some w2 =>
          match bo.pack32 (if isdir then i + s else s) with
          | none => none
          | some w3 =>
            writeTableGo bo rest (buf.write (w1 ++ w2 ++ w3)) nt
              ((some path, i) :: m) (i + 1)
termination_by structural l _ _ _ _ => l

/-- The file-data loop of Darc.to_bytes (lib/new_darc.py lines 220-245):
aligns, writes each file's payload, and patches the entry's offset and
length fields. -/
def writeFilesGo (bo : ByteOrderType) (m : List (Option String × Nat)) :
    List (String × Bool × Bytes × Nat) → Buf → Option Buf
  | [], buf => some buf
  | (path, isdir, data, len) :: rest, buf =>
    if isdir then writeFilesGo bo m rest buf
    else
      let buf := darcAlign buf
      let filePos := buf.tell
      let buf := buf.write data
      let fileEnd := buf.tell
      match f2iLookup m (some path) with
      | none => none
      | some idx =>
        match bo.pack32 filePos with
        | none => none
        | some w1 =>
          match bo.pack32 len with
          | none => none
          | some w2 =>
            writeFilesGo bo m rest
              ((((buf.seek (0x1C + 0xC * idx + 0x4)).write (w1 ++ w2))).seek fileEnd)
termination_by structural l _ => l

/-- The ident and header writes of Darc.to_bytes (lib/new_darc.py lines
163-176): magic, BOM, then the "H I I I I I" header with 0xFFFFFFFF
placeholders for file length, table length and data offset. -/
def darcWriteHeader (bo : ByteOrderType) : Option Buf :=
  let buf := Buf.empty.write (magicDarc ++ bo.bom)
  match bo.pack16 0x1C, bo.pack32 0x1000000, bo.pack32 0xFFFFFFFF,
      bo.pack32 0x1C with
  | some h1, some h2, some hF, some h4 =>
    some (buf.write (h1 ++ h2 ++ hF ++ h4 ++ hF ++ hF))
  | _, _, _, _ => none

/-- The tail of Darc.to_bytes (lib/new_darc.py lines 247-252): seek to
the end and patch the total file size at offset 0xC. -/
def darcFinal (bo : ByteOrderType) (buf : Buf) : Option Bytes :=
  let buf := buf.seek buf.data.length
  match bo.pack32 buf.tell with
  | none => none
  | some ws => some (((buf.seek 0xC).write ws).getvalue)

/-- Darc.to_bytes after the table loop (lib/new_darc.py lines 199-245):
name table, table-length patch, 32-byte alignment, data-offset patch,
the file-data loop, and the final size patch. -/
def darcFinish (bo : ByteOrderType) (root : DarcEntry) (buf : Buf)
    (nt : Bytes) (m : List (Option String × Nat)) : Option Bytes :=
  let buf := buf.write nt
  let ntEnd := buf.tell
  match bo.pack32 (ntEnd - 0x1C) with
  | none => none
  | some wt =>
    let buf := ((buf.seek 0x14).write wt).seek ntEnd
    let buf := darcAlign buf
    let fds := buf.tell
    match bo.pack32 fds with
    | none => none
    | some wd =>
      let buf := ((buf.seek 0x18).write wd).seek fds
      match writeFilesGo bo m (breadthWithPath none root) buf with
      | none => none
      | some buf => darcFinal bo buf

/-- Darc.to_bytes (lib/new_darc.py lines 160-252). -/
def Darc.to_bytes (bo : ByteOrderType) (root : DarcEntry) : Option Bytes :=
  match darcWriteHeader bo with
  | none => none
  | some buf =>
    match writeTableGo bo (flatWithPath none root) buf []
        [(none, 0), (some root.name, 0)] 0 with
    | none => none
    | some (buf, nt, m, _) => darcFinish bo root buf nt m

/-- u32 value from four bytes in the given order. -/
def u32val (bo : ByteOrderType) (a b c d : Nat) : Nat :=
  match bo with
  | .le => a + 256 * b + 65536 * c + 16777216 * d
  | .be => 16777216 * a + 65536 * b + 256 * c + d

/-- Reads `k` 12-byte file-table records. -/
def readEntriesGo (bo : ByteOrderType) (d : Bytes) :
    Nat → Nat → List (Nat × Nat × Nat) → Option (List (Nat × Nat × Nat))
  | 0, _, acc => some acc
  | k + 1, pos, acc =>
    match slice d pos 12 with
    | [a0, a1, a2, a3, f0, f1, f2, f3, l0, l1, l2, l3] =>
      readEntriesGo bo d k (pos + 12)
        (acc ++ [(u32val bo a0 a1 a2 a3, u32val bo f0 f1 f2 f3, u32val bo l0 l1 l2 l3)])
    | _ => none

/-- Reads a NUL-terminated UTF-16 name two bytes at a time (each chunk
decoded on its own, as the source does).  Fuel models the non-termination
of the Python loop on an unterminated name at end of buffer. -/
def readName16 (bo : ByteOrderType) (d : Bytes) :
    Nat → Nat → String → Option String
  | 0, _, _ => none
  | fuel + 1, pos, acc =>
    match slice d pos 2 with
    | [x, y] =>
      if x = 0 ∧ y = 0 then some acc
      else
        match decodeUnit16 bo [x, y] with
        | some c => readName16 bo d fuel (pos + 2) (acc.push c)
        | none => none
    | _ => none

/-- Clears bit 24 (`name_offset &= ~0x01000000`). -/
def clearBit24 (n : Nat) : Nat := n % 0x1000000 + n / 0x2000000 * 0x2000000

/-- A frame of the directory stack: directory name, its end index in the
root-exclusive table (Python stores length - 1, which can be -1), and
the children accumulated so far. -/
abbrev DarcFrame := String × Int × List DarcEntry

/-- Popping the top frame attaches the finished directory to the frame
below; popping the only frame leaves the stack empty and the next access
fails (IndexError). -/
def popFrame : List DarcFrame → Option (List DarcFrame)
  | (n, _, cs) :: (n', e', cs') :: below => some ((n', e', cs' ++ [.dir n cs]) :: below)
  | _ => none

/-- The entry walk of Darc.from_bytes (lib/new_darc.py lines 290-320):
one pop check per index, then name decode and either a file read or a
directory push. -/
def buildGo (bo : ByteOrderType) (d : Bytes) (ntStart : Nat) :
    List (Nat × Nat × Nat) → Nat → List DarcFrame → Option (List DarcFrame)
  | [], _, stack => some stack
  | (rawName, fileOff, len) :: rest, i, stack =>
    let popped : Option (List DarcFrame) :=
      match stack with
      | top :: _ => if top.2.1 = (i : Int) then popFrame stack else some stack
      | [] => none
    match popped with
    | none => none
    | some stack =>
      let isDirE := rawName / 0x1000000 % 2 = 1
      let nameOff := clearBit24 rawName
      match readName16 bo d (d.length + 1) (ntStart + nameOff) "" with
      | none => none
      | some nm =>
        match stack with
        | [] => none
        | (tn, te, tcs) :: below =>
          if isDirE then
            buildGo bo d ntStart rest (i + 1)
              ((nm, (len : Int) - 1, []) :: (tn, te, tcs) :: below)
          else
            buildGo bo d ntStart rest (i + 1)
              ((tn, te, tcs ++ [.file nm (slice d fileOff len)]) :: below)

/-- Folding a finished frame into the one below it, repeatedly. -/
def collapseGo : DarcFrame → List DarcFrame → DarcEntry
  | (n, _, cs), [] => .dir n cs
  | (n, _, cs), (n', e', cs') :: below => collapseGo (n', e', cs' ++ [.dir n cs]) below

/-- Collapses the remaining stack onto the root frame at end of input. -/
def collapseFrames : List DarcFrame → Option DarcEntry
  | [] => none
  | f :: rest => some (collapseGo f rest)

/-- Darc.from_bytes (lib/new_darc.py lines 254-332): ident, header with
version check (an unknown BOM silently defaults to little endian), root
entry, raw table, then the stack walk. -/
def Darc.from_bytes (d : Bytes) : Option (ByteOrderType × DarcEntry) :=
  match slice d 0 6 with
  | [c0, c1, c2, c3, b0, b1] =>
    if [c0, c1, c2, c3] ≠ magicDarc then none
    else
      let bo := if b0 = 0xFF ∧ b1 = 0xFE then ByteOrderType.le
        else if b0 = 0xFE ∧ b1 = 0xFF then ByteOrderType.be
        else ByteOrderType.le
      match slice d 6 22 with
      | [_, _, v0, v1, v2, v3, _, _, _, _, _, _, _, _, _, _, _, _, _, _, _, _] =>
        if u32val bo v0 v1 v2 v3 ≠ 0x1000000 then none
        else
          match slice d 28 12 with
          | [_, _, _, _, _, _, _, _, e0, e1, e2, e3] =>
            let endIndex := u32val bo e0 e1 e2 e3
            match readEntriesGo bo d (endIndex - 1) 40 [] with
            | none => none
            | some raw =>
              let ntStart := 40 + 12 * (endIndex - 1)
              match buildGo bo d ntStart raw 0 [("", (endIndex : Int), [])] with
              | none => none
              | some stack =>
                match collapseFrames stack with
                | none => none
                | some root => some (bo, root)
          | _ => none
      | _ => none
  | _ => none

-- ### Helper lemmas: block loops and slices

theorem parseBlocksGo_mem (bo : ByteOrderType) (enc : Enc) :
    ∀ (l : List (String × Bytes)) (l' : List (String × Block)),
      parseBlocksGo bo enc l = .ok l' →
      ∀ kv ∈ l, ∃ b, (kv.1, b) ∈ l' ∧ stdParseBlock bo enc kv.1 kv.2 = .ok b := by
  intro l
  induction l with
  | nil => intro l' _ kv hkv; cases hkv
  | cons x xs ih =>
    intro l' hp kv hkv
    obtain ⟨k, v⟩ := x
    rw [parseBlocksGo] at hp
    cases hx : stdParseBlock bo enc k v with
    | error e => rw [hx] at hp; cases hp
    | ok b =>
      rw [hx] at hp
      cases hxs : parseBlocksGo bo enc xs with
      | error e => rw [hxs] at hp; cases hp
      | ok bs =>
        rw [hxs] at hp
        cases hp
        rcases List.mem_cons.mp hkv with rfl | hmem
        · exact ⟨b, List.mem_cons_self _ _, hx⟩
        · rcases ih bs hxs kv hmem with ⟨b', hb', hfb'⟩
          exact ⟨b', List.mem_cons_of_mem _ hb', hfb'⟩

theorem writeBlocksGo_txt2_none (bo : ByteOrderType)
    (m : List (String × List TagRecord)) (k : String) :
    ∀ (l : List (String × Block)) (b0 : Buf), (k, Block.txt2 m) ∈ l →
      writeBlocksGo bo l b0 = none := by
  intro l
  induction l with
  | nil => intro b0 h; cases h
  | cons x xs ih =>
    intro b0 hmem
    obtain ⟨k', blk⟩ := x
    rcases List.mem_cons.mp hmem with heq | hmem
    · cases heq
      rw [writeBlocksGo]
      rfl
    · rw [writeBlocksGo]
      cases hb : blk.to_bytes bo with
      | none => rfl
      | some bd =>
        cases ha : asciiEncode k' with
        | none => rfl
        | some tagB =>
          cases hs : bo.pack32 bd.length with
          | none => simp only [hs]
          | some szB =>
            simp only [hs]
            exact ih _ hmem

theorem slice_within {d : Bytes} {pos n : Nat} {bs : Bytes}
    (h : slice d pos n = bs) (k m : Nat) (hkm : k + m ≤ n) :
    slice d (pos + k) m = (bs.drop k).take m := by
  subst h
  unfold slice
  rw [show d.drop (pos + k) = (d.drop pos).drop k by rw [List.drop_drop, Nat.add_comm]]
  rw [List.drop_take]
  rw [List.take_take]
  congr 1
  omega

-- ### Helper lemmas: pre-order structure of the entry table

/-- The children of a node (empty for files). -/
def DarcEntry.childrenL : DarcEntry → List DarcEntry
  | .file .. => []
  | .dir _ cs => cs

theorem flatTree_eq_cons (e : DarcEntry) :
    e.flat_tree = e :: flatTreeList e.childrenL := by
  cases e <;> rfl

theorem flatTreeList_append (a b : List DarcEntry) :
    flatTreeList (a ++ b) = flatTreeList a ++ flatTreeList b := by
  induction a with
  | nil => rfl
  | cons x xs ih => simp [flatTreeList, ih, List.append_assoc]

theorem flatTreeList_cons_expand (e : DarcEntry) (es : List DarcEntry) :
    flatTreeList (e :: es) = e :: flatTreeList (e.childrenL ++ es) := by
  rw [flatTreeList, flatTree_eq_cons e, flatTreeList_append]
  rfl

theorem flatTreeList_singleton (r : DarcEntry) :
    flatTreeList [r] = r.flat_tree := by
  rw [flatTreeList, flatTreeList]
  exact List.append_nil _

mutual

theorem dir_entry_size_eq_flat (e : DarcEntry) :
    e.dir_entry_size = e.flat_tree.length := by
  cases e with
  | file n d => rfl
  | dir n cs =>
    show 1 + dirEntrySizeList cs = (DarcEntry.dir n cs :: flatTreeList cs).length
    rw [dirEntrySizeList_eq_flat cs]
    simp [Nat.add_comm]

theorem dirEntrySizeList_eq_flat (l : List DarcEntry) :
    dirEntrySizeList l = (flatTreeList l).length := by
  cases l with
  | nil => rfl
  | cons e es =>
    show e.dir_entry_size + dirEntrySizeList es = (e.flat_tree ++ flatTreeList es).length
    rw [dir_entry_size_eq_flat e, dirEntrySizeList_eq_flat es]
    simp

end

mutual

theorem dir_entry_size_eq_desc (e : DarcEntry) :
    e.dir_entry_size = 1 + descendantCount e := by
  cases e with
  | file n d => rfl
  | dir n cs =>
    show 1 + dirEntrySizeList cs = 1 + descendantCountList cs
    rw [dirEntrySizeList_eq_desc cs]

theorem dirEntrySizeList_eq_desc (l : List DarcEntry) :
    dirEntrySizeList l = descendantCountList l := by
  cases l with
  | nil => rfl
  | cons e es =>
    show e.dir_entry_size + dirEntrySizeList es = 1 + descendantCount e + descendantCountList es
    rw [dir_entry_size_eq_desc e, dirEntrySizeList_eq_desc es]

end

/-- The depth-first pre-order table is self-similar: whatever entry `e`
sits at position `j`, the table continues with exactly `e`'s subtree. -/
theorem flat_segment :
    ∀ (j : Nat) (l : List DarcEntry) (e : DarcEntry) (rest : List DarcEntry),
      (flatTreeList l).drop j = e :: rest →
      (e :: rest).take e.flat_tree.length = e.flat_tree := by
  intro j
  induction j with
  | zero =>
    intro l e rest h
    cases l with
    | nil => cases h
    | cons x xs =>
      rw [List.drop_zero, flatTreeList_cons_expand] at h
      have hx : e = x := (List.cons.inj h).1.symm
      have hrest : rest = flatTreeList (x.childrenL ++ xs) := (List.cons.inj h).2.symm
      rw [hx, hrest, flatTree_eq_cons x]
      show (x :: (flatTreeList (x.childrenL ++ xs))).take (x :: flatTreeList x.childrenL).length
          = x :: flatTreeList x.childrenL
      rw [List.length_cons, List.take_succ_cons, flatTreeList_append]
      congr 1
      exact List.take_left _ _
  | succ j ih =>
    intro l e rest h
    cases l with
    | nil => cases h
    | cons x xs =>
      rw [flatTreeList_cons_expand, List.drop_succ_cons] at h
      exact ih (x.childrenL ++ xs) e rest h

/-- C10: the file-type sniffer is total on non-empty input, returning one
of the six FileType values, with the LZ11 first-byte test decided before
any magic comparison; on empty input it raises (models IndexError as
`none`). -/
theorem c10_sniffer_total :
    (∀ d : Bytes, d ≠ [] → (FileType.guess d).isSome = true)
    ∧ (∀ (b : Nat) (rest : Bytes), b = 0x11 →
        FileType.guess (b :: rest) = some FileType.lz11File)
    ∧ FileType.guess [] = none := by
  refine ⟨?_, ?_, rfl⟩
  · intro d hd
    match d with
    | b :: rest => simp [FileType.guess]
  · intro b rest hb
    subst hb
    simp [FileType.guess]

/-- C10 witness: concrete instances of the sniffer theorem. -/
theorem c10_sniffer_total_witness :
    (FileType.guess [0x11, 0x22]).isSome = true
    ∧ FileType.guess [0x11, 0x22] = some FileType.lz11File := by
  refine ⟨c10_sniffer_total.1 [0x11, 0x22] (by decide), c10_sniffer_total.2.1 0x11 [0x22] rfl⟩

/-- C4 counterexample: on the label "é" with slot count 5 the code's hash
(fold over Unicode code points) yields 3, while the claimed fold over the
label's UTF-8 code units yields 4, so the claim's "for every label"
equation is false. -/
theorem c4_hash_counterexample :
    HashTableBlock.hash "é" 5 = 3 ∧ specHashUtf8 "é" 5 = 4 ∧ ¬ (3 = 4) := by
  refine ⟨by decide, by decide, by decide⟩

/-- C4 amended: the bucket function equals the fold
h = h_prev * 0x492 + codepoint(c) over the label's Unicode code points
(not UTF-8 code units), reduced mod 2^32 and then mod the slot count; and
h("MSBT_Test", 29) is the fixed value 10. -/
theorem c4_hash_codepoint_formula :
    (∀ (label : String) (n : Nat), 0 < n →
      HashTableBlock.hash label n = specHashCodepoints label n)
    ∧ HashTableBlock.hash "MSBT_Test" 29 = 10 := by
  constructor
  · intro label n _
    unfold HashTableBlock.hash specHashCodepoints
    have h : (4294967295 : Nat) = 2 ^ 32 - 1 := by norm_num
    rw [h, Nat.and_pow_two_sub_one_eq_mod]
  · decide

/-- C4 witness: the amended formula at the label "MSBT_Test" with 29
slots. -/
theorem c4_hash_codepoint_formula_witness :
    HashTableBlock.hash "MSBT_Test" 29 = specHashCodepoints "MSBT_Test" 29 :=
  c4_hash_codepoint_formula.1 "MSBT_Test" 29 (by decide)

/-- C3: evaluating the resolver exactly at the claim's scenario.  With
TGG2 = [("system",[0,1])], TAG2 = [("Ruby",[0]),("Size",[1])],
TGP2 = [("text",0,[]),("pt",0,[])], the message consisting of the
placeholder character U+FFFC with the single record (0,0,b"") does NOT
resolve to ("system","Ruby",...): the code compares each character
against the three-character string "ï¿¼" (the UTF-8 bytes of U+FFFC
decoded as code points), which a one-character string never equals, so
the output keeps the raw text and resolves no tags. -/
theorem c3_resolver_moji_eval :
    (importMsbp [("text", 0, []), ("pt", 0, [])]
        [("Ruby", [0]), ("Size", [1])] [("system", [0, 1])]).bind
      (fun proj => importBinaryText proj "￼" [(0, 0, [])])
    = some ("￼", []) := by
  rfl

/-- C7 counterexample: a record whose group index 5 is out of range of an
empty group table is not surfaced as any error: the resolver returns
successfully with the text unchanged and no resolved tags (there is no
UnresolvedTagRef anywhere in the code). -/
theorem c7_unresolved_counterexample :
    importBinaryText ⟨[], [], []⟩ "￼" [(5, 0, [])] = some ("￼", []) := by
  rfl

/-- A minimal Standard file: valid header (utf-16-le, version 3, one
block) and a single TXT2 block with zero messages. -/
def c1Input : Bytes :=
  magicStd ++ [0xFF, 0xFE] ++ [0, 0, 1, 3] ++ [1, 0] ++ [0, 0] ++ le32 52
    ++ List.replicate 10 0
    ++ [84, 88, 84, 50] ++ le32 4 ++ List.replicate 8 0 ++ [0, 0, 0, 0]

/-- C1 counterexample: `c1Input` parses successfully as a Standard file,
yet emitting the parse result fails (TXT2Block.to_bytes raises
NotImplementedError), so `from_bytes(M).to_bytes() == M` does not hold
and to_bytes does fail on a successfully parsed file. -/
theorem c1_roundtrip_counterexample :
    (LMSStandardFile.from_bytes c1Input).isOk = true
    ∧ (LMSStandardFile.from_bytes c1Input).toOption.bind LMSFileData.to_bytes
        = none :=
  ⟨rfl, rfl⟩

/-- C1 amended: re-emission is not total on parsed files: every
successfully parsed Standard file that contains a TXT2 block fails to
emit, because TXT2Block.to_bytes raises NotImplementedError; hence the
byte-exact round-trip claim fails for Standard files with a message
block. -/
theorem c1_txt2_emit_fails (data : Bytes) (f : LMSFileData)
    (hok : LMSStandardFile.from_bytes data = .ok f)
    (htxt : "TXT2" ∈ f.raw_blocks.map Prod.fst) :
    f.to_bytes = none := by
  unfold LMSStandardFile.from_bytes at hok
  split at hok
  · exact Except.noConfusion hok
  next hdr h1 =>
    split at hok
    · exact Except.noConfusion hok
    next raw h2 =>
      split at hok
      · exact Except.noConfusion hok
      · split at hok
        · exact Except.noConfusion hok
        next blocks h3 =>
          have hf : f = ⟨hdr.magic, hdr.byteOrder, hdr.encoding, raw, blocks⟩ :=
            (Except.ok.inj hok).symm
          subst hf
          simp only at htxt
          rcases List.mem_map.mp htxt with ⟨kv, hkvmem, hfst⟩
          rcases parseBlocksGo_mem hdr.byteOrder hdr.encoding raw blocks h3 kv hkvmem
            with ⟨b, hbmem, hparse⟩
          rw [hfst] at hparse hbmem
          have hred : stdParseBlock hdr.byteOrder hdr.encoding "TXT2" kv.2
              = (match TXT2Block.from_bytes hdr.byteOrder hdr.encoding kv.2 with
                | some m => .ok (.txt2 m)
                | none => .error .blockError) := rfl
          rw [hred] at hparse
          cases h4 : TXT2Block.from_bytes hdr.byteOrder hdr.encoding kv.2 with
          | none => rw [h4] at hparse; exact Except.noConfusion hparse
          | some m =>
            rw [h4] at hparse
            have hb : b = Block.txt2 m := (Except.ok.inj hparse).symm
            subst hb
            show LMSFileData.to_bytes _ = none
            unfold LMSFileData.to_bytes
            cases h5 : ByteOrderType.pack16 hdr.byteOrder blocks.length with
            | none => simp only [h5]
            | some nb =>
              have h6 : hdr.byteOrder.pack32 0
                  = some (match hdr.byteOrder with | .le => le32 0 | .be => be32 0) := by
                unfold ByteOrderType.pack32
                rw [if_pos (by norm_num)]
              simp only [h5, h6]
              rw [writeBlocksGo_txt2_none hdr.byteOrder m "TXT2" blocks _ hbmem]

/-- C1 amended witness: the general theorem applied to the concrete
minimal Standard file. -/
theorem c1_txt2_emit_fails_witness :
    LMSFileData.to_bytes
      ⟨magicStd, .le, .utf16 .le, [("TXT2", [0, 0, 0, 0])],
        [("TXT2", Block.txt2 [])]⟩ = none :=
  c1_txt2_emit_fails c1Input _ (by rfl) (by decide)

/-- The claim's raw message bytes (13 bytes — one 0x00 short of encoding
the record the claim describes). -/
def c6BytesClaim : Bytes := [0x0E, 0, 0, 3, 0, 4, 0, 0, 0, 0, 0xFF, 0, 0]

/-- The corrected raw message bytes: code unit 0x000E, group 0, tag 3,
param_size 4, four parameter bytes, then the UTF-16 NUL. -/
def c6BytesFixed : Bytes := [0x0E, 0, 0, 0, 3, 0, 4, 0, 0, 0, 0, 0xFF, 0, 0]

/-- C6 counterexample: parsing the claim's 13-byte message yields the tag
record (0x0300, 0x0400, b"") — the little-endian u16s that actually
follow the 0x000E unit — not the claimed (0, 3, 00 00 00 FF), so the
claim is false on its stated input. -/
theorem c6_txt2_counterexample :
    txt2ReadMsg .le (.utf16 .le) c6BytesClaim (c6BytesClaim.length + 1) 0 "" []
      = some ("￼", [((768 : Int), (1024 : Int), ([] : Bytes))])
    ∧ ([((768 : Int), (1024 : Int), ([] : Bytes))]
        ≠ [((0 : Int), (3 : Int), ([0, 0, 0, 0xFF] : Bytes))]) :=
  ⟨rfl, by decide⟩

/-- C6 amended: with the missing 0x00 restored, the 14-byte message
parses to exactly one object-replacement placeholder and the tag list
[(0, 3, bytes 00 00 00 FF)], the terminating NUL not in the record list;
and in general a 0x000E code unit makes the scanner read group:u16,
tag:u16, param_size:u16 and param_size parameter bytes as one record,
substituting the placeholder. -/
theorem c6_txt2_message_parse :
    (txt2ReadMsg .le (.utf16 .le) c6BytesFixed (c6BytesFixed.length + 1) 0 "" []
      = some ("￼", [((0 : Int), (3 : Int), ([0, 0, 0, 0xFF] : Bytes))]))
    ∧ (∀ (d : Bytes) (fuel pos : Nat) (msg : String) (tags : List TagRecord)
        (g1 g2 t1 t2 s1 s2 : Nat),
        slice d pos 8 = [0x0E, 0, g1, g2, t1, t2, s1, s2] →
        txt2ReadMsg .le (.utf16 .le) d (fuel + 1) pos msg tags
          = txt2ReadMsg .le (.utf16 .le) d fuel
              (pos + 8 + (slice d (pos + 8) (s1 + 256 * s2)).length)
              (msg.push (Char.ofNat 0xFFFC))
              (tags ++ [((g1 + 256 * g2 : Int), (t1 + 256 * t2 : Int),
                  slice d (pos + 8) (s1 + 256 * s2))])) := by
  constructor
  · rfl
  · intro d fuel pos msg tags g1 g2 t1 t2 s1 s2 h
    have h02 : slice d pos 2 = [0x0E, 0] := by
      have := slice_within h 0 2 (by omega)
      simpa using this
    have hg : slice d (pos + 2) 2 = [g1, g2] := by
      have := slice_within h 2 2 (by omega)
      simpa using this
    have ht : slice d (pos + 2 + 2) 2 = [t1, t2] := by
      have := slice_within h 4 2 (by omega)
      rw [show pos + 2 + 2 = pos + 4 by omega]
      simpa using this
    have hs : slice d (pos + 2 + 4) 2 = [s1, s2] := by
      have := slice_within h 6 2 (by omega)
      rw [show pos + 2 + 4 = pos + 6 by omega]
      simpa using this
    rw [txt2ReadMsg]
    simp only [Enc.width, h02, hg, ht, hs]
    rw [show pos + 2 + 6 = pos + 8 by omega]
    rfl

/-- C6 amended witness: the general record-step clause applied at the
corrected concrete message. -/
theorem c6_txt2_message_parse_witness :
    txt2ReadMsg .le (.utf16 .le) c6BytesFixed (13 + 1) 0 "" []
      = txt2ReadMsg .le (.utf16 .le) c6BytesFixed 13
          (0 + 8 + (slice c6BytesFixed (0 + 8) (4 + 256 * 0)).length)
          (String.push "" (Char.ofNat 0xFFFC))
          ([] ++ [((0 + 256 * 0 : Int), (3 + 256 * 0 : Int),
              slice c6BytesFixed (0 + 8) (4 + 256 * 0))]) :=
  c6_txt2_message_parse.2 c6BytesFixed 13 0 "" [] 0 0 3 0 4 0 (by rfl)

/-- C9: in the emitted file table, a directory's third field
(entryThird, written by the table loop of Darc.to_bytes) is the
exclusive end index of its subtree in the depth-first pre-order table:
for the directory `e` at pre-order index `j`, the table continues with
exactly `e`'s subtree of length end - j, `end - j - 1` equals the number
of descendants of `e`, and the root's end index equals the total entry
count. -/
theorem c9_end_index_invariant (r : DarcEntry) (j : Nat) (e : DarcEntry)
    (rest : List DarcEntry) (hj : r.flat_tree.drop j = e :: rest)
    (hd : e.isDir = true) :
    entryThird e j = j + e.flat_tree.length
    ∧ (e :: rest).take e.flat_tree.length = e.flat_tree
    ∧ entryThird e j - j - 1 = descendantCount e
    ∧ (r.isDir = true → entryThird r 0 = r.flat_tree.length) := by
  have hthird : entryThird e j = j + e.dir_entry_size := by
    unfold entryThird
    rw [hd]
    simp
  have hroot : r.isDir = true → entryThird r 0 = r.flat_tree.length := by
    intro hr
    unfold entryThird
    rw [hr]
    simp [dir_entry_size_eq_flat]
  refine ⟨?_, ?_, ?_, hroot⟩
  · rw [hthird, dir_entry_size_eq_flat]
  · apply flat_segment j [r] e rest
    rw [flatTreeList_singleton]
    exact hj
  · rw [hthird]
    have h1 := dir_entry_size_eq_desc e
    omega

/-- C9 witness: the invariant at the root of a two-entry archive. -/
theorem c9_end_index_invariant_witness :
    entryThird (DarcEntry.dir "" [DarcEntry.file "a.msbt" [1, 2]]) 0
        = 0 + (DarcEntry.dir "" [DarcEntry.file "a.msbt" [1, 2]]).flat_tree.length
    ∧ ((DarcEntry.dir "" [DarcEntry.file "a.msbt" [1, 2]])
          :: [DarcEntry.file "a.msbt" [1, 2]]).take
        (DarcEntry.dir "" [DarcEntry.file "a.msbt" [1, 2]]).flat_tree.length
        = (DarcEntry.dir "" [DarcEntry.file "a.msbt" [1, 2]]).flat_tree
    ∧ entryThird (DarcEntry.dir "" [DarcEntry.file "a.msbt" [1, 2]]) 0 - 0 - 1
        = descendantCount (DarcEntry.dir "" [DarcEntry.file "a.msbt" [1, 2]])
    ∧ ((DarcEntry.dir "" [DarcEntry.file "a.msbt" [1, 2]]).isDir = true →
        entryThird (DarcEntry.dir "" [DarcEntry.file "a.msbt" [1, 2]]) 0
          = (DarcEntry.dir "" [DarcEntry.file "a.msbt" [1, 2]]).flat_tree.length) :=
  c9_end_index_invariant (DarcEntry.dir "" [DarcEntry.file "a.msbt" [1, 2]]) 0
    (DarcEntry.dir "" [DarcEntry.file "a.msbt" [1, 2]])
    [DarcEntry.file "a.msbt" [1, 2]] (by rfl) (by rfl)

/-- C8: for a buffer with at least the 32 header bytes and a valid BOM,
header parsing fails with BadVersion iff the version byte (offset 13)
differs from 3; with version 3 it fails with BadEncoding iff the
encoding code (offset 12) is not 0, 1 or 2; otherwise it succeeds with
the magic, the BOM's byte order, and the text encoding derived from the
encoding code and that byte order. -/
theorem c8_header_errors
    (m0 m1 m2 m3 m4 m5 m6 m7 b0 b1 p0 p1 encT ver n0 n1 q0 q1 s0 s1 s2 s3
      t0 t1 t2 t3 t4 t5 t6 t7 t8 t9 : Nat) (rest : Bytes)
    (hbom : (b0 = 0xFF ∧ b1 = 0xFE) ∨ (b0 = 0xFE ∧ b1 = 0xFF)) :
    ∀ d : Bytes,
    d = [m0, m1, m2, m3, m4, m5, m6, m7, b0, b1, p0, p1, encT, ver,
        n0, n1, q0, q1, s0, s1, s2, s3, t0, t1, t2, t3, t4, t5, t6, t7, t8, t9]
        ++ rest →
    (readHeaderCore d = .error .badVersion ↔ ver ≠ 3)
    ∧ (ver = 3 →
        ((readHeaderCore d = .error .badEncoding)
          ↔ ¬ (encT = 0 ∨ encT = 1 ∨ encT = 2)))
    ∧ (ver = 3 → ∀ e : Enc,
        encFromCode encT (if b0 = 0xFF then .le else .be) = some e →
        readHeaderCore d
          = .ok ⟨[m0, m1, m2, m3, m4, m5, m6, m7],
              (if b0 = 0xFF then .le else .be), e,
              (if b0 = 0xFF then n0 + 256 * n1 else 256 * n0 + n1)⟩) := by
  intro d hd
  subst hd
  rcases hbom with ⟨hb0, hb1⟩ | ⟨hb0, hb1⟩ <;> subst hb0 <;> subst hb1
  · rw [if_pos rfl]
    refine ⟨?_, ?_, ?_⟩
    · by_cases hv : ver = 3
      · subst hv
        rcases encT with _ | _ | _ | e <;> simp [readHeaderCore, slice, fromBom]
      · simp [readHeaderCore, slice, fromBom, hv]
    · intro hv
      subst hv
      rcases encT with _ | _ | _ | e <;> simp [readHeaderCore, slice, fromBom]
    · intro hv e he
      subst hv
      rcases encT with _ | _ | _ | k
      · cases Option.some.inj he
        simp [readHeaderCore, slice, fromBom]
      · cases Option.some.inj he
        simp [readHeaderCore, slice, fromBom]
      · cases Option.some.inj he
        simp [readHeaderCore, slice, fromBom]
      · exact Option.noConfusion he
  · rw [if_neg (by norm_num)]
    refine ⟨?_, ?_, ?_⟩
    · by_cases hv : ver = 3
      · subst hv
        rcases encT with _ | _ | _ | e <;> simp [readHeaderCore, slice, fromBom]
      · simp [readHeaderCore, slice, fromBom, hv]
    · intro hv
      subst hv
      rcases encT with _ | _ | _ | e <;> simp [readHeaderCore, slice, fromBom]
    · intro hv e he
      subst hv
      rcases encT with _ | _ | _ | k
      · cases Option.some.inj he
        simp [readHeaderCore, slice, fromBom]
      · cases Option.some.inj he
        simp [readHeaderCore, slice, fromBom]
      · cases Option.some.inj he
        simp [readHeaderCore, slice, fromBom]
      · exact Option.noConfusion he

/-- C8 witness: the success clause at a concrete Standard-file header
(BOM FF FE, encoding code 1, version 3, one block). -/
theorem c8_header_errors_witness :
    readHeaderCore (magicStd ++ [0xFF, 0xFE] ++ [0, 0, 1, 3] ++ [1, 0]
        ++ [0, 0] ++ le32 52 ++ List.replicate 10 0)
      = .ok ⟨magicStd, .le, .utf16 .le, 1⟩ := by
  have h := c8_header_errors 0x4D 0x73 0x67 0x53 0x74 0x64 0x42 0x6E 0xFF 0xFE
    0 0 1 3 1 0 0 0 52 0 0 0 0 0 0 0 0 0 0 0 0 0 []
    (Or.inl ⟨rfl, rfl⟩)
    (magicStd ++ [0xFF, 0xFE] ++ [0, 0, 1, 3] ++ [1, 0]
        ++ [0, 0] ++ le32 52 ++ List.replicate 10 0) (by rfl)
  have h3 := h.2.2 rfl (.utf16 .le) (by rfl)
  simpa using h3

/-- C7 amended: bundle resolution never surfaces any cross-reference
error: because the placeholder comparison in import_binary_text can never
match a single character, no record is ever looked up, every message
resolves successfully to its text unchanged with an empty resolved-tag
list, and the offending records keep their raw numeric indices in the
untouched input list. -/
theorem c7_resolver_never_errors (project : OMSProject) (message : String)
    (tags : List (Int × Int × Bytes)) :
    importBinaryText project message tags = some (message, []) := by
  unfold importBinaryText
  rw [importBinaryTextGo_eq]
  cases message with
  | mk data => simp

theorem Buf.write_at_end (d : Bytes) (pos : Nat) (w : Bytes) (hpos : pos = d.length) :
    Buf.write ⟨d, pos⟩ w = ⟨d ++ w, pos + w.length⟩ := by
  subst hpos
  unfold Buf.write
  simp

theorem Buf.write_inside (d : Bytes) (pos : Nat) (w : Bytes)
    (h : pos + w.length ≤ d.length) :
    Buf.write ⟨d, pos⟩ w
      = ⟨d.take pos ++ w ++ d.drop (pos + w.length), pos + w.length⟩ := by
  unfold Buf.write
  have h2 : pos - d.length = 0 := by omega
  rw [h2]
  simp

def singleArc (p : Bytes) : DarcEntry := DarcEntry.dir "" [DarcEntry.file "a.msbt" p]

def darcHdr28 : Bytes :=
  [100, 97, 114, 99, 255, 254, 28, 0, 0, 0, 0, 1, 255, 255, 255, 255,
   28, 0, 0, 0, 255, 255, 255, 255, 255, 255, 255, 255]

def darcData40 : Bytes := darcHdr28 ++ [0, 0, 0, 1, 0, 0, 0, 0, 2, 0, 0, 0]

def darcNt16 : Bytes := [0, 0, 97, 0, 46, 0, 109, 0, 115, 0, 98, 0, 116, 0, 0, 0]

def darcMapF : List (Option String × Nat) :=
  [(some "/a.msbt", 1), (some "", 0), (none, 0), (some "", 0)]

def darcPre96B (p : Bytes) : Bytes :=
  [100, 97, 114, 99, 255, 254, 28, 0, 0, 0, 0, 1, 255, 255, 255, 255,
   28, 0, 0, 0, 40, 0, 0, 0, 96, 0, 0, 0,
   0, 0, 0, 1, 0, 0, 0, 0, 2, 0, 0, 0,
   2, 0, 0, 0, 96, 0, 0, 0] ++ le32 p.length
  ++ darcNt16 ++ List.replicate 28 0

def darcSingleBytes (p : Bytes) : Bytes :=
  [100, 97, 114, 99, 255, 254, 28, 0, 0, 0, 0, 1] ++ le32 (96 + p.length)
  ++ [28, 0, 0, 0, 40, 0, 0, 0, 96, 0, 0, 0,
      0, 0, 0, 1, 0, 0, 0, 0, 2, 0, 0, 0,
      2, 0, 0, 0, 96, 0, 0, 0] ++ le32 p.length
  ++ darcNt16 ++ List.replicate 28 0 ++ p

def darcD52 (p : Bytes) : Bytes :=
  darcData40 ++ [2, 0, 0, 0, 0, 0, 0, 0] ++ le32 p.length

theorem darc_single_table (p : Bytes) (h1 : p.length < 4294967296) :
    writeTableGo .le
        [(none, "", "", true, 2), (some "", "/a.msbt", "a.msbt", false, p.length)]
        ⟨darcHdr28, 28⟩ [] [(none, 0), (some "", 0)] 0
      = some (⟨darcD52 p, 52⟩, darcNt16, darcMapF, 2) := by
  rw [show writeTableGo .le
        [(none, "", "", true, 2), (some "", "/a.msbt", "a.msbt", false, p.length)]
        ⟨darcHdr28, 28⟩ [] [(none, 0), (some "", 0)] 0
      = writeTableGo .le [(some "", "/a.msbt", "a.msbt", false, p.length)]
        ⟨darcData40, 40⟩ [0, 0] [(some "", 0), (none, 0), (some "", 0)] 1 from rfl]
  rw [show writeTableGo .le [(some "", "/a.msbt", "a.msbt", false, p.length)]
        ⟨darcData40, 40⟩ [0, 0] [(some "", 0), (none, 0), (some "", 0)] 1
      = (match ByteOrderType.le.pack32 p.length with
         | none => none
         | some w3 =>
           some ((⟨darcData40, 40⟩ : Buf).write ([2, 0, 0, 0] ++ [0, 0, 0, 0] ++ w3),
             [0, 0] ++ utf16Encode .le "a.msbt" ++ [0, 0],
             [(some "/a.msbt", 1), (some "", 0), (none, 0), (some "", 0)], 2)) from rfl]
  rw [show ByteOrderType.pack32 .le p.length = some (le32 p.length) by
    unfold ByteOrderType.pack32; rw [if_pos h1]]
  rfl

def darcPre96A (p : Bytes) : Bytes :=
  [100, 97, 114, 99, 255, 254, 28, 0, 0, 0, 0, 1, 255, 255, 255, 255,
   28, 0, 0, 0, 40, 0, 0, 0, 96, 0, 0, 0,
   0, 0, 0, 1, 0, 0, 0, 0, 2, 0, 0, 0,
   2, 0, 0, 0, 0, 0, 0, 0] ++ le32 p.length
  ++ darcNt16 ++ List.replicate 28 0






theorem darc_single_files (p : Bytes) (h1 : p.length < 4294967296) :
    writeFilesGo .le darcMapF [("/a.msbt", false, p, p.length), ("", true, [], 1)]
        ⟨darcPre96A p, 96⟩
      = some ⟨darcPre96B p ++ p, 96 + p.length⟩ := by
  have hal : darcAlign ⟨darcPre96A p, 96⟩ = ⟨darcPre96A p, 96⟩ := by
    unfold darcAlign
    norm_num [Buf.tell]
  have hw : (⟨darcPre96A p, 96⟩ : Buf).write p = ⟨darcPre96A p ++ p, 96 + p.length⟩ :=
    Buf.write_at_end _ _ _ (by simp [darcPre96A, darcNt16, le32])
  simp only [writeFilesGo]
  simp only [Bool.false_eq_true, if_false, if_true]
  rw [hal]
  rw [show f2iLookup darcMapF (some "/a.msbt") = some 1 from rfl]
  rw [show Buf.tell ⟨darcPre96A p, 96⟩ = 96 from rfl]
  rw [show ByteOrderType.pack32 .le 96 = some [96, 0, 0, 0] from rfl]
  rw [hw]
  rw [show Buf.tell ⟨darcPre96A p ++ p, 96 + p.length⟩ = 96 + p.length from rfl]
  rw [show ByteOrderType.pack32 .le p.length = some (le32 p.length) by
    unfold ByteOrderType.pack32; rw [if_pos h1]]
  show some ((((⟨darcPre96A p ++ p, 96 + p.length⟩ : Buf).seek 44).write
        ([96, 0, 0, 0] ++ le32 p.length)).seek (96 + p.length))
      = some ⟨darcPre96B p ++ p, 96 + p.length⟩
  rw [show (⟨darcPre96A p ++ p, 96 + p.length⟩ : Buf).seek 44
      = ⟨darcPre96A p ++ p, 44⟩ from rfl]
  rw [Buf.write_inside _ _ _
    (by simp [darcPre96A, darcNt16, le32])]
  rfl

def darcT68 (p : Bytes) : Bytes :=
  [100, 97, 114, 99, 255, 254, 28, 0, 0, 0, 0, 1, 255, 255, 255, 255,
   28, 0, 0, 0, 40, 0, 0, 0, 255, 255, 255, 255,
   0, 0, 0, 1, 0, 0, 0, 0, 2, 0, 0, 0,
   2, 0, 0, 0, 0, 0, 0, 0] ++ le32 p.length ++ darcNt16

theorem darc_single_finish (p : Bytes) (h1 : p.length < 4294967296)
    (h2 : 96 + p.length < 4294967296) :
    darcFinish .le (singleArc p) ⟨darcD52 p, 52⟩ darcNt16 darcMapF
      = some (darcSingleBytes p) := by
  rw [show darcFinish .le (singleArc p) ⟨darcD52 p, 52⟩ darcNt16 darcMapF
      = (match ByteOrderType.pack32 .le (Buf.tell ((⟨darcD52 p, 52⟩ : Buf).write darcNt16) - 28) with
         | none => none
         | some wt =>
           match ByteOrderType.pack32 .le (Buf.tell (darcAlign (((((⟨darcD52 p, 52⟩ : Buf).write darcNt16).seek 20).write wt).seek (Buf.tell ((⟨darcD52 p, 52⟩ : Buf).write darcNt16))))) with
           | none => none
           | some wd =>
             match writeFilesGo .le darcMapF (breadthWithPath none (singleArc p))
                 ((((darcAlign (((((⟨darcD52 p, 52⟩ : Buf).write darcNt16).seek 20).write wt).seek (Buf.tell ((⟨darcD52 p, 52⟩ : Buf).write darcNt16)))).seek 24).write wd).seek (Buf.tell (darcAlign (((((⟨darcD52 p, 52⟩ : Buf).write darcNt16).seek 20).write wt).seek (Buf.tell ((⟨darcD52 p, 52⟩ : Buf).write darcNt16)))))) with
             | none => none
             | some buf => darcFinal .le buf) from rfl]
  rw [show (⟨darcD52 p, 52⟩ : Buf).write darcNt16 = ⟨darcD52 p ++ darcNt16, 68⟩ from by
    rw [Buf.write_at_end _ _ _ (by simp [darcD52, darcData40, darcHdr28, le32])]
    rfl]
  rw [show Buf.tell ⟨darcD52 p ++ darcNt16, 68⟩ = 68 from rfl]
  rw [show (68 : Nat) - 28 = 40 from rfl]
  rw [show ByteOrderType.pack32 .le 40 = some [40, 0, 0, 0] from rfl]
  show (match ByteOrderType.pack32 .le (Buf.tell (darcAlign ((((⟨darcD52 p ++ darcNt16, 68⟩ : Buf).seek 20).write [40, 0, 0, 0]).seek 68))) with
       | none => none
       | some wd =>
         match writeFilesGo .le darcMapF (breadthWithPath none (singleArc p))
             ((((darcAlign ((((⟨darcD52 p ++ darcNt16, 68⟩ : Buf).seek 20).write [40, 0, 0, 0]).seek 68)).seek 24).write wd).seek
               (Buf.tell (darcAlign ((((⟨darcD52 p ++ darcNt16, 68⟩ : Buf).seek 20).write [40, 0, 0, 0]).seek 68)))) with
         | none => none
         | some buf => darcFinal .le buf)
      = some (darcSingleBytes p)
  rw [show (⟨darcD52 p ++ darcNt16, 68⟩ : Buf).seek 20 = ⟨darcD52 p ++ darcNt16, 20⟩ from rfl]
  rw [show (⟨darcD52 p ++ darcNt16, 20⟩ : Buf).write [40, 0, 0, 0] = ⟨darcT68 p, 24⟩ from by
    rw [Buf.write_inside _ _ _ (by simp [darcD52, darcData40, darcHdr28, darcNt16, le32])]
    rfl]
  rw [show (⟨darcT68 p, 24⟩ : Buf).seek 68 = ⟨darcT68 p, 68⟩ from rfl]
  rw [show darcAlign ⟨darcT68 p, 68⟩ = ⟨darcT68 p ++ List.replicate 28 0, 96⟩ from by
    unfold darcAlign
    norm_num [Buf.tell]
    rw [Buf.write_at_end _ _ _ (by simp [darcT68, darcNt16, le32])]
    rfl]
  rw [show Buf.tell ⟨darcT68 p ++ List.replicate 28 0, 96⟩ = 96 from rfl]
  rw [show ByteOrderType.pack32 .le 96 = some [96, 0, 0, 0] from rfl]
  show (match writeFilesGo .le darcMapF (breadthWithPath none (singleArc p))
         ((((⟨darcT68 p ++ List.replicate 28 0, 96⟩ : Buf).seek 24).write
             [96, 0, 0, 0]).seek 96) with
       | none => none
       | some buf => darcFinal .le buf)
      = some (darcSingleBytes p)
  rw [show (⟨darcT68 p ++ List.replicate 28 0, 96⟩ : Buf).seek 24
      = ⟨darcT68 p ++ List.replicate 28 0, 24⟩ from rfl]
  rw [show (⟨darcT68 p ++ List.replicate 28 0, 24⟩ : Buf).write [96, 0, 0, 0]
      = ⟨darcPre96A p, 28⟩ from by
    rw [Buf.write_inside _ _ _ (by simp [darcT68, darcNt16, le32])]
    rfl]
  rw [show (⟨darcPre96A p, 28⟩ : Buf).seek 96 = ⟨darcPre96A p, 96⟩ from rfl]
  rw [show breadthWithPath none (singleArc p)
      = [("/a.msbt", false, p, p.length), ("", true, [], 1)] from rfl]
  rw [darc_single_files p h1]
  show darcFinal .le ⟨darcPre96B p ++ p, 96 + p.length⟩ = some (darcSingleBytes p)
  rw [show darcFinal .le ⟨darcPre96B p ++ p, 96 + p.length⟩
      = (match ByteOrderType.pack32 .le
            (Buf.tell ((⟨darcPre96B p ++ p, 96 + p.length⟩ : Buf).seek
              (⟨darcPre96B p ++ p, 96 + p.length⟩ : Buf).data.length)) with
         | none => none
         | some ws =>
           some (Buf.getvalue ((((⟨darcPre96B p ++ p, 96 + p.length⟩ : Buf).seek
               (⟨darcPre96B p ++ p, 96 + p.length⟩ : Buf).data.length).seek 12).write
             ws))) from rfl]
  rw [show (⟨darcPre96B p ++ p, 96 + p.length⟩ : Buf).data = darcPre96B p ++ p from rfl]
  have hlen : (darcPre96B p ++ p).length = 96 + p.length := by
    simp [darcPre96B, darcNt16, le32]
    omega
  rw [hlen]
  rw [show Buf.tell ((⟨darcPre96B p ++ p, 96 + p.length⟩ : Buf).seek (96 + p.length))
      = 96 + p.length from rfl]
  rw [show ByteOrderType.pack32 .le (96 + p.length) = some (le32 (96 + p.length)) by
    unfold ByteOrderType.pack32; rw [if_pos h2]]
  show some (Buf.getvalue ((((⟨darcPre96B p ++ p, 96 + p.length⟩ : Buf).seek
        (96 + p.length)).seek 12).write (le32 (96 + p.length))))
      = some (darcSingleBytes p)
  rw [show ((⟨darcPre96B p ++ p, 96 + p.length⟩ : Buf).seek (96 + p.length)).seek 12
      = ⟨darcPre96B p ++ p, 12⟩ from rfl]
  rw [Buf.write_inside _ _ _ (by simp [darcPre96B, darcNt16, le32])]
  rfl

theorem darc_single_emit (p : Bytes) (h2 : 96 + p.length < 4294967296) :
    Darc.to_bytes .le (singleArc p) = some (darcSingleBytes p) := by
  have h1 : p.length < 4294967296 := by omega
  rw [show Darc.to_bytes .le (singleArc p)
      = (match darcWriteHeader .le with
         | none => none
         | some buf =>
           match writeTableGo .le (flatWithPath none (singleArc p)) buf []
               [(none, 0), (some (DarcEntry.name (singleArc p)), 0)] 0 with
           | none => none
           | some (buf, nt, m, _) => darcFinish .le (singleArc p) buf nt m) from rfl]
  rw [show darcWriteHeader .le = some ⟨darcHdr28, 28⟩ from rfl]
  show (match writeTableGo .le (flatWithPath none (singleArc p)) ⟨darcHdr28, 28⟩ []
        [(none, 0), (some (DarcEntry.name (singleArc p)), 0)] 0 with
     | none => none
     | some (buf, nt, m, _) => darcFinish .le (singleArc p) buf nt m)
      = some (darcSingleBytes p)
  rw [show flatWithPath none (singleArc p)
      = [(none, "", "", true, 2), (some "", "/a.msbt", "a.msbt", false, p.length)] from rfl]
  rw [show DarcEntry.name (singleArc p) = "" from rfl]
  rw [darc_single_table p h1]
  show darcFinish .le (singleArc p) ⟨darcD52 p, 52⟩ darcNt16 darcMapF
      = some (darcSingleBytes p)
  exact darc_single_finish p h1 h2

theorem darc_single_parse (p : Bytes) (h2 : 96 + p.length < 4294967296) :
    Darc.from_bytes (darcSingleBytes p) = some (.le, singleArc p) := by
  have h1 : p.length < 4294967296 := by omega
  rw [show Darc.from_bytes (darcSingleBytes p)
      = (match readEntriesGo .le (darcSingleBytes p) (u32val .le 2 0 0 0 - 1) 40 [] with
         | none => none
         | some raw =>
           match buildGo .le (darcSingleBytes p) (40 + 12 * (u32val .le 2 0 0 0 - 1)) raw 0
               [("", ((u32val .le 2 0 0 0 : Nat) : Int), [])] with
           | none => none
           | some stack =>
             match collapseFrames stack with
             | none => none
             | some root => some (ByteOrderType.le, root)) from rfl]
  have hval : u32val .le (p.length % 256) (p.length / 256 % 256) (p.length / 65536 % 256)
      (p.length / 16777216 % 256) = p.length := by
    show p.length % 256 + 256 * (p.length / 256 % 256) + 65536 * (p.length / 65536 % 256)
        + 16777216 * (p.length / 16777216 % 256) = p.length
    omega
  have hraw : readEntriesGo .le (darcSingleBytes p) (u32val .le 2 0 0 0 - 1) 40 []
      = some [(2, 96, p.length)] := by
    rw [show readEntriesGo .le (darcSingleBytes p) (u32val .le 2 0 0 0 - 1) 40 []
        = some [(2, 96, u32val .le (p.length % 256) (p.length / 256 % 256)
            (p.length / 65536 % 256) (p.length / 16777216 % 256))] from rfl]
    rw [hval]
  rw [hraw]
  show (match buildGo .le (darcSingleBytes p) (40 + 12 * (u32val .le 2 0 0 0 - 1))
        [(2, 96, p.length)] 0 [("", ((u32val .le 2 0 0 0 : Nat) : Int), [])] with
     | none => none
     | some stack =>
       match collapseFrames stack with
       | none => none
       | some root => some (ByteOrderType.le, root)) = some (ByteOrderType.le, singleArc p)
  rw [show (u32val .le 2 0 0 0 : Nat) = 2 from rfl]
  rw [show (40 + 12 * ((2 : Nat) - 1) : Nat) = 52 from rfl]
  rw [show buildGo .le (darcSingleBytes p) 52 [(2, 96, p.length)] 0
        [("", ((2 : Nat) : Int), [])]
      = some [("", ((2 : Nat) : Int),
          [DarcEntry.file "a.msbt" (slice (darcSingleBytes p) 96 p.length)])] from rfl]
  rw [show slice (darcSingleBytes p) 96 p.length = p from by
    rw [show slice (darcSingleBytes p) 96 p.length = List.take p.length p from rfl]
    exact List.take_length p]
  rfl

/-- The 40-byte archive of claim C2's counterexample: a well-formed
header and a lone root entry, with a 16-byte table length and 40-byte
data offset that the parser ignores. -/
def c2Input : Bytes :=
  magicDarc ++ [0xFF, 0xFE] ++ le16 0x1C ++ le32 0x1000000 ++ le32 40 ++ le32 0x1C
    ++ le32 0x10 ++ le32 40 ++ le32 0x1000000 ++ le32 0 ++ le32 1

set_option maxRecDepth 10000 in
/-- C2 counterexample: this 40-byte archive parses successfully, but
re-emitting the parsed archive yields a 64-byte file (the emitter
always pads the header area to a 32-byte boundary and recomputes every
size field), so to_bytes(from_bytes(A)) differs from A. -/
theorem c2_roundtrip_counterexample :
    (Darc.from_bytes c2Input).isSome = true ∧
    (Darc.from_bytes c2Input).bind (fun x => Darc.to_bytes x.1 x.2) ≠ some c2Input := by
  exact ⟨rfl, by decide⟩

/-- C2 (amended): the archive round-trip holds in the emit-then-parse
direction.  For every payload below the u32 size bound, emitting the
single-file archive gives `darcSingleBytes p`, parsing those bytes
reconstructs exactly the archive, and re-emitting the parse result
reproduces the emitted bytes byte-for-byte: emitted archives are fixed
points of parse-then-emit, though arbitrary parsable inputs are not. -/
theorem c2_emit_parse_roundtrip (p : Bytes) (h : 96 + p.length < 4294967296) :
    Darc.from_bytes (darcSingleBytes p) = some (.le, singleArc p) ∧
    (Darc.from_bytes (darcSingleBytes p)).bind (fun x => Darc.to_bytes x.1 x.2)
      = some (darcSingleBytes p) := by
  refine ⟨darc_single_parse p h, ?_⟩
  rw [darc_single_parse p h]
  show Darc.to_bytes .le (singleArc p) = some (darcSingleBytes p)
  exact darc_single_emit p h

set_option maxRecDepth 10000 in
theorem c2_emit_parse_roundtrip_witness :
    96 + ([77, 115, 103, 83, 116, 100, 66, 110] : Bytes).length < 4294967296 ∧
    (Darc.from_bytes (darcSingleBytes [77, 115, 103, 83, 116, 100, 66, 110])
        = some (.le, singleArc [77, 115, 103, 83, 116, 100, 66, 110]) ∧
      (Darc.from_bytes (darcSingleBytes [77, 115, 103, 83, 116, 100, 66, 110])).bind
          (fun x => Darc.to_bytes x.1 x.2)
        = some (darcSingleBytes [77, 115, 103, 83, 116, 100, 66, 110])) :=
  ⟨by decide, c2_emit_parse_roundtrip [77, 115, 103, 83, 116, 100, 66, 110] (by decide)⟩

set_option maxRecDepth 10000 in
/-- C5 counterexample: for the single-file archive with payload
"MsgStdBn", the emitted bytes place the payload at offset 96, not 64:
bytes 64..71 of the output are alignment zeros, and the payload bytes
appear at 96..103. -/
theorem c5_payload_offset_counterexample :
    Darc.to_bytes .le (singleArc [77, 115, 103, 83, 116, 100, 66, 110])
      = some (darcSingleBytes [77, 115, 103, 83, 116, 100, 66, 110]) ∧
    slice (darcSingleBytes [77, 115, 103, 83, 116, 100, 66, 110]) 64 8 ≠ [77, 115, 103, 83, 116, 100, 66, 110] ∧
    slice (darcSingleBytes [77, 115, 103, 83, 116, 100, 66, 110]) 96 8 = [77, 115, 103, 83, 116, 100, 66, 110] := by
  refine ⟨darc_single_emit _ (by decide), by decide, by decide⟩

/-- C5 (amended): emitting the root-plus-`a.msbt` archive produces
bytes whose first 28 bytes are "darc", BOM FF FE, header length 1C 00,
version 00 00 00 01, the total file length, table offset 0x1C, table
length 0x28 and data offset 0x60; the file payload begins at byte
offset 96 (the 32-byte alignment of header+table+name table), not 64. -/
theorem c5_single_file_layout (p : Bytes) (h : 96 + p.length < 4294967296) :
    Darc.to_bytes .le (singleArc p) = some (darcSingleBytes p) ∧
    slice (darcSingleBytes p) 0 28
      = [100, 97, 114, 99, 255, 254, 28, 0, 0, 0, 0, 1] ++ le32 (96 + p.length)
        ++ [28, 0, 0, 0, 40, 0, 0, 0, 96, 0, 0, 0] ∧
    slice (darcSingleBytes p) 96 p.length = p := by
  refine ⟨darc_single_emit p h, rfl, ?_⟩
  rw [show slice (darcSingleBytes p) 96 p.length = List.take p.length p from rfl]
  exact List.take_length p

set_option maxRecDepth 10000 in
theorem c5_single_file_layout_witness :
    96 + ([1, 2, 3] : Bytes).length < 4294967296 ∧
    (Darc.to_bytes .le (singleArc [1, 2, 3]) = some (darcSingleBytes [1, 2, 3]) ∧
      slice (darcSingleBytes [1, 2, 3]) 0 28
        = [100, 97, 114, 99, 255, 254, 28, 0, 0, 0, 0, 1]
          ++ le32 (96 + ([1, 2, 3] : Bytes).length)
          ++ [28, 0, 0, 0, 40, 0, 0, 0, 96, 0, 0, 0] ∧
      slice (darcSingleBytes [1, 2, 3]) 96 ([1, 2, 3] : Bytes).length = [1, 2, 3]) :=
  ⟨by decide, c5_single_file_layout [1, 2, 3] (by decide)⟩
end MsbtTools
